import Mathlib

/-!
Verification development for the quantbot backend
(backend/handlers/bland.go): the conversation state machine, the
number extractor and the session store.

Modelling conventions:
- Go strings are modelled as Lean `String` / `List Char`; the string
  helpers from the Go standard library (strings.Fields, strings.Trim,
  strings.ReplaceAll, strings.Contains, strings.ToUpper) are embedded
  below on their ASCII fragment, which covers every input appearing in
  this development.
- Go `float64` order fields are modelled as `ℚ`; `strconv.ParseFloat`
  is embedded as an exact decimal parser (`parseDec`) covering the
  decimal forms of the grammar (sign, digits, fraction, exponent).
  Every numeral manipulated by the claims is an exact decimal, where
  the Go float computation is exact as well.
- The price lookup (`fetchCurrentPrice`) performs network I/O; it is
  treated as the injected capability of the spec,
  `lookup : String → String → Option ℚ`, passed to the state machine
  (`none` models the error return).
- The `sessions` map guarded by `sessionsMux` is modelled as an
  association list with shadowing on update; `getOrCreateSession` and
  `updateSession` are each one atomic store operation (each holds the
  mutex for exactly its own duration in the Go code).
-/

namespace Quant

/-! ## ASCII string helpers (embedding of the Go standard library calls) -/

/-- Whitespace test used by `strings.Fields` (ASCII fragment of
`unicode.IsSpace`). -/
def isSpaceChar (c : Char) : Bool :=
  c == ' ' || c == '\t' || c == '\n' || c == '\x0b' || c == '\x0c' || c == '\r'

/-- Worker for `fieldsL`: accumulates the current word (reversed). -/
def fieldsAux : List Char → List Char → List (List Char)
  | [], acc => if acc = [] then [] else [acc.reverse]
  | c :: cs, acc =>
    if isSpaceChar c then
      (if acc = [] then fieldsAux cs [] else acc.reverse :: fieldsAux cs [])
    else fieldsAux cs (c :: acc)

/-- Embedding of `strings.Fields`: split on runs of whitespace, no empty
words. -/
def fieldsL (cs : List Char) : List (List Char) := fieldsAux cs []

/-- Embedding of `strings.ReplaceAll(text, ",", "")`. -/
def removeCommas (cs : List Char) : List Char :=
  cs.filter (fun c => !(c == ','))

/-- The cutset `".,!?$"` of the `strings.Trim` call in `extractNumber`. -/
def cutset : List Char := ['.', ',', '!', '?', '$']

/-- Embedding of `strings.Trim(word, cut)`: drop leading and trailing
characters belonging to the cutset. -/
def trimL (cut : List Char) (cs : List Char) : List Char :=
  ((cs.dropWhile (fun c => cut.contains c)).reverse.dropWhile
    (fun c => cut.contains c)).reverse

/-- Is `pat` a prefix of `s` (on character lists)? -/
def startsWithL : List Char → List Char → Bool
  | _, [] => true
  | [], _ :: _ => false
  | c :: cs, p :: ps => c == p && startsWithL cs ps

/-- Worker for `strContains`. -/
def strContainsL : List Char → List Char → Bool
  | [], pat => startsWithL [] pat
  | c :: cs, pat => startsWithL (c :: cs) pat || strContainsL cs pat

/-- Embedding of `strings.Contains(s, pat)`. -/
def strContains (s pat : String) : Bool :=
  strContainsL s.toList pat.toList

/-- Embedding of `strings.ToUpper` on its ASCII fragment. -/
def asciiUpper (s : String) : String :=
  String.mk (s.toList.map (fun c =>
    if 97 ≤ c.toNat ∧ c.toNat ≤ 122 then Char.ofNat (c.toNat - 32) else c))

/-! ## Decimal parsing (embedding of `strconv.ParseFloat` on decimals) -/

/-- ASCII decimal digit test (as in `strconv`). -/
def isDigitChar (c : Char) : Bool := 48 ≤ c.toNat && c.toNat ≤ 57

/-- Split a character list into its longest digit prefix and the rest. -/
def spanDigits : List Char → List Char × List Char
  | [] => ([], [])
  | c :: cs =>
    if isDigitChar c then
      let p := spanDigits cs
      (c :: p.1, p.2)
    else ([], c :: cs)

/-- Numeric value of a digit-character list, most significant first. -/
def natVal (ds : List Char) : ℕ :=
  ds.foldl (fun a c => 10 * a + (c.toNat - 48)) 0

/-- Parse the exponent tail after the `e`: optional sign then digits,
nothing may follow. -/
def parseExpTail (m : ℚ) (cs : List Char) : Option ℚ :=
  match cs with
  | [] => none
  | c :: rest =>
    let neg := c = '-'
    let body := if c = '+' ∨ c = '-' then rest else c :: rest
    let q := spanDigits body
    if q.1 = [] ∨ q.2 ≠ [] then none
    else some (m * (10 : ℚ) ^
      (if neg then -(natVal q.1 : ℤ) else (natVal q.1 : ℤ)))

/-- Parse the fraction digits `fs` after the dot, with integer digits
`ds` already read and `rest` still unread. -/
def parseFrac (ds fs rest : List Char) : Option ℚ :=
  if ds = [] ∧ fs = [] then none
  else
    let m : ℚ := (natVal ds : ℚ) + (natVal fs : ℚ) / 10 ^ fs.length
    match rest with
    | [] => some m
    | e :: rest3 => if e = 'e' ∨ e = 'E' then parseExpTail m rest3 else none

/-- Continue an unsigned parse after the leading digit span. -/
def parseAfterSpan (ds rest : List Char) : Option ℚ :=
  match rest with
  | [] => if ds = [] then none else some (natVal ds : ℚ)
  | c :: rest2 =>
    if c = '.' then parseFrac ds (spanDigits rest2).1 (spanDigits rest2).2
    else if c = 'e' ∨ c = 'E' then
      (if ds = [] then none else parseExpTail (natVal ds : ℚ) rest2)
    else none

/-- Unsigned decimal: digits, optional fraction, optional exponent; at
least one mantissa digit. -/
def parseUnsigned (cs : List Char) : Option ℚ :=
  parseAfterSpan (spanDigits cs).1 (spanDigits cs).2

/-- Embedding of `strconv.ParseFloat(s, 64)` restricted to its decimal
grammar, with the exact rational value (Go rounds this value to the
nearest binary64; every numeral in this development is exactly
representable, where the two agree). -/
def parseDec (cs : List Char) : Option ℚ :=
  match cs with
  | [] => none
  | c :: rest =>
    if c = '+' then parseUnsigned rest
    else if c = '-' then (parseUnsigned rest).map (fun q => -q)
    else parseUnsigned (c :: rest)

/-! ## The number extractor (`extractNumber` in bland.go) -/

/-- The loop body of `extractNumber`: trim each word and return the
first parse success. -/
def extractCore : List (List Char) → ℚ × Bool
  | [] => (0, false)
  | w :: ws =>
    match parseDec (trimL cutset w) with
    | some n => (n, true)
    | none => extractCore ws

/-- Embedding of `extractNumber(text, keywords)`: split on whitespace
after removing commas, trim surrounding punctuation, return the first
parseable number.  The `keywords` argument is bound but never used,
exactly as in the source. -/
def extractNumber (text : String) (keywords : List String) : ℚ × Bool :=
  extractCore (fieldsL (removeCommas text.toList))

/-! ## Decimal rendering (embedding of the `%.4f` format verbs) -/

/-- Digit character of `n % 10`. -/
def digitCharN (n : ℕ) : Char := Char.ofNat (48 + n % 10)

/-- Worker rendering the decimal digits of `n` (first argument is
fuel, always called with fuel above `n`). -/
def natDigitsAux : ℕ → ℕ → List Char
  | 0, _ => []
  | f + 1, n =>
    if n < 10 then [digitCharN n]
    else natDigitsAux f (n / 10) ++ [digitCharN (n % 10)]

/-- Decimal rendering of a natural number. -/
def natStr (n : ℕ) : String := String.mk (natDigitsAux (n + 1) n)

/-- Exactly four zero-padded digits, for the fraction part of `%.4f`. -/
def pad4 (r : ℕ) : String :=
  String.mk [digitCharN (r / 1000 % 10), digitCharN (r / 100 % 10),
    digitCharN (r / 10 % 10), digitCharN (r % 10)]

/-- Render `m` scaled by ten thousand, the body of `%.4f`. -/
def fmt4Nat (m : ℕ) : String := natStr (m / 10000) ++ "." ++ pad4 (m % 10000)

/-- Embedding of the `%.4f` format verb on an exact rational: four
digits after the point (ties round away from zero; every value the
program formats here is exact at four decimals, so no tie arises). -/
def fmt4 (q : ℚ) : String :=
  if q < 0 then "-" ++ fmt4Nat (Int.toNat ⌊-q * 10000 + 1 / 2⌋)
  else fmt4Nat (Int.toNat ⌊q * 10000 + 1 / 2⌋)

/-! ## The session record and the state machine -/

/-- Embedding of `TradingSession` (bland.go).  The `context` map is
carried but never touched by the logic, as in the source. -/
structure TradingSession where
  callID : String
  state : String
  exchange : String
  symbol : String
  price : ℚ
  quantity : ℚ
  orderPrice : ℚ
  context : List (String × String)
deriving DecidableEq, Repr

/-- The session created by `StartCall` / `getOrCreateSession`: state
greeting, every other field the Go zero value. -/
def initialSession (id : String) : TradingSession :=
  { callID := id, state := "greeting", exchange := "", symbol := ""
    price := 0, quantity := 0, orderPrice := 0, context := [] }

/-- The venue table of `handleExchangeSelection`.  The Go source
iterates a map, whose order is unspecified; the list below fixes the
source text order.  Every utterance considered in this development
matches at most one key, where the order is immaterial. -/
def exchangePairs : List (String × String) :=
  [("okx", "OKX"), ("bybit", "Bybit"), ("deribit", "Deribit"),
   ("binance", "Binance")]

/-- The fixed order-summary template of `confirmOrder`, split at its
four rendered holes. -/
def confirmMsg (qty sym price exch : String) : String :=
  "Got it. To confirm, you want to trade " ++ qty ++ " " ++ sym ++
    " at $" ++ price ++ " per unit on " ++ exch ++ ". Is that correct?"

/-- Embedding of `confirmOrder`. -/
def confirmOrder (s : TradingSession) : String :=
  confirmMsg (fmt4 s.quantity) s.symbol (fmt4 s.orderPrice) s.exchange

/-- Embedding of `handleExchangeSelection`. -/
def handleExchangeSelection (s : TradingSession) (u : String) :
    TradingSession × String :=
  match exchangePairs.find? (fun kv => strContains u kv.1) with
  | some kv =>
    ({ s with exchange := kv.2, state := "exchange_selected" },
      "Great! You\x27ve selected " ++ kv.2 ++
        ". Which trading symbol would you like to trade?")
  | none =>
    (s, "I didn\x27t catch that. Please choose from: OKX, Bybit, Deribit, or Binance.")

/-- Embedding of `handleSymbolSelection`; `lookup` is the injected
price capability (`fetchCurrentPrice`), `none` its error return. -/
def handleSymbolSelection (lookup : String → String → Option ℚ)
    (s : TradingSession) (u : String) : TradingSession × String :=
  let potentialSymbol := asciiUpper u
  match lookup s.exchange potentialSymbol with
  | none =>
    (s, "Sorry, I couldn\x27t get the price for " ++ potentialSymbol ++
      ". Please try a different symbol.")
  | some price =>
    ({ s with symbol := potentialSymbol
              price := price
              state := "symbol_selected" },
      "The current price for " ++ potentialSymbol ++ " on " ++ s.exchange ++
        " is $" ++ fmt4 price ++ ". Now, what quantity and price for the order?")

/-- Embedding of `handleOrderDetails`. -/
def handleOrderDetails (s : TradingSession) (u : String) :
    TradingSession × String :=
  let q := extractNumber u ["quantity", "amount", "size"]
  let p := extractNumber u ["price", "at", "for"]
  let s1 := if q.2 then { s with quantity := q.1 } else s
  let s2 := if p.2 then { s1 with orderPrice := p.1 } else s1
  if 0 < s2.quantity ∧ 0 < s2.orderPrice then
    let s3 := { s2 with state := "confirming" }
    (s3, confirmOrder s3)
  else if 0 < s2.quantity then
    ({ s2 with state := "awaiting_price" }, "And at what price?")
  else if 0 < s2.orderPrice then
    ({ s2 with state := "awaiting_quantity" }, "And what quantity?")
  else
    (s2, "I need the quantity and the price. For example, \x271.5 Bitcoin at 65,000 dollars\x27.")

/-- Embedding of `handleQuantity`. -/
def handleQuantity (s : TradingSession) (u : String) :
    TradingSession × String :=
  let r := extractNumber u []
  if r.2 then
    let s1 := { s with quantity := r.1, state := "confirming" }
    (s1, confirmOrder s1)
  else (s, "I didn\x27t catch that. How much do you want to trade?")

/-- Embedding of `handleOrderPrice`. -/
def handleOrderPrice (s : TradingSession) (u : String) :
    TradingSession × String :=
  let r := extractNumber u []
  if r.2 then
    let s1 := { s with orderPrice := r.1, state := "confirming" }
    (s1, confirmOrder s1)
  else (s, "Sorry, what was the price?")

/-- Embedding of `handleConfirmation`. -/
def handleConfirmation (s : TradingSession) (u : String) :
    TradingSession × String :=
  if strContains u "yes" || strContains u "correct" then
    ({ s with state := "completed" },
      "Excellent! Your simulated order has been recorded. Thank you for using GoQuant!")
  else if strContains u "no" || strContains u "wrong" then
    ({ s with state := "symbol_selected", quantity := 0, orderPrice := 0 },
      "No problem, let\x27s correct it. What quantity and at what price?")
  else (s, "Please confirm with \x27yes\x27 or \x27no\x27.")

/-- Embedding of `processUserInput`: dispatch on the session state, the
Go `switch` rendered as the equivalent equality chain with the same
default branch. -/
def processUserInput (lookup : String → String → Option ℚ)
    (s : TradingSession) (u : String) : TradingSession × String :=
  if s.state = "greeting" then handleExchangeSelection s u
  else if s.state = "exchange_selected" then handleSymbolSelection lookup s u
  else if s.state = "symbol_selected" then handleOrderDetails s u
  else if s.state = "awaiting_quantity" then handleQuantity s u
  else if s.state = "awaiting_price" then handleOrderPrice s u
  else if s.state = "confirming" then handleConfirmation s u
  else
    ({ s with state := "greeting" },
      "I\x27m sorry, I seem to have lost track. Let\x27s start over. Which exchange would you like to trade on: OKX, Bybit, Deribit, or Binance?")

/-! ## The session store (`sessions` map under `sessionsMux`) -/

/-- The store contents: association list, first binding wins. -/
def SessionStore : Type := List (String × TradingSession)

/-- Map lookup. -/
def storeFind : SessionStore → String → Option TradingSession
  | [], _ => none
  | (k, v) :: rest, id => if k = id then some v else storeFind rest id

/-- Embedding of `getOrCreateSession`: one atomic store operation (the
Go function holds `sessionsMux` for exactly this body).  Returns the
session and the store after the call. -/
def getOrCreateSession (st : SessionStore) (callID : String) :
    TradingSession × SessionStore :=
  match storeFind st callID with
  | some s => (s, st)
  | none =>
    let s := initialSession callID
    (s, (callID, s) :: st)

/-- Embedding of `updateSession`: one atomic store operation writing
the record under its call id. -/
def updateSession (st : SessionStore) (s : TradingSession) : SessionStore :=
  (s.callID, s) :: st

/-! ## Reachability -/

/-- Sessions reachable by running `processUserInput` on any sequence of
utterances, with any gateway behaviour at every step, from a freshly
created session. -/
inductive Reachable : TradingSession → Prop
  | init (id : String) : Reachable (initialSession id)
  | step (lookup : String → String → Option ℚ) (u : String)
      (s : TradingSession) : Reachable s →
      Reachable (processUserInput lookup s u).1

/-! ## Concrete evaluation support -/

unseal Rat.add Rat.mul Rat.inv Rat.sub

/-! ## Dispatch lemmas for `processUserInput` -/

theorem processUserInput_greeting (lk : String → String → Option ℚ)
    (s : TradingSession) (u : String) (h : s.state = "greeting") :
    processUserInput lk s u = handleExchangeSelection s u := by
  simp only [processUserInput, h]
  rfl

theorem processUserInput_exchangeSelected (lk : String → String → Option ℚ)
    (s : TradingSession) (u : String) (h : s.state = "exchange_selected") :
    processUserInput lk s u = handleSymbolSelection lk s u := by
  simp only [processUserInput, h]
  rfl

theorem processUserInput_symbolSelected (lk : String → String → Option ℚ)
    (s : TradingSession) (u : String) (h : s.state = "symbol_selected") :
    processUserInput lk s u = handleOrderDetails s u := by
  simp only [processUserInput, h]
  rfl

theorem processUserInput_confirming (lk : String → String → Option ℚ)
    (s : TradingSession) (u : String) (h : s.state = "confirming") :
    processUserInput lk s u = handleConfirmation s u := by
  simp only [processUserInput, h]
  rfl

theorem processUserInput_completed (lk : String → String → Option ℚ)
    (s : TradingSession) (u : String) (h : s.state = "completed") :
    processUserInput lk s u =
      ({ s with state := "greeting" },
        "I\x27m sorry, I seem to have lost track. Let\x27s start over. Which exchange would you like to trade on: OKX, Bybit, Deribit, or Binance?") := by
  simp only [processUserInput, h]
  rfl

/-! ## Concrete sessions used by witnesses and counterexamples -/

/-- A session mid-confirmation (used by the C10 witness). -/
def sessC10 : TradingSession :=
  { callID := "c10", state := "confirming", exchange := "OKX"
    symbol := "BITCOIN", price := 6512345 / 100, quantity := 3 / 2
    orderPrice := 65000, context := [] }

/-- A session mid-confirmation (used by the C3 counterexample). -/
def sessC3 : TradingSession :=
  { callID := "c3", state := "confirming", exchange := "Bybit"
    symbol := "ETH", price := 2500, quantity := 2, orderPrice := 3
    context := [] }

/-- A session mid-confirmation (used by the C3 witness). -/
def sessC3W : TradingSession :=
  { callID := "c3w", state := "confirming", exchange := "OKX"
    symbol := "BITCOIN", price := 6512345 / 100, quantity := 7
    orderPrice := 64000, context := [] }

/-- A completed session (used by C4). -/
def sessC4 : TradingSession :=
  { callID := "c4", state := "completed", exchange := "OKX"
    symbol := "BITCOIN", price := 6512345 / 100, quantity := 3 / 2
    orderPrice := 65000, context := [] }

/-- A session that has just selected an exchange (used by the C6
witness). -/
def sessC6 : TradingSession :=
  { callID := "c6", state := "exchange_selected", exchange := "OKX"
    symbol := "", price := 0, quantity := 0, orderPrice := 0
    context := [] }

/-- A session that has just received a quote (used by C2). -/
def sessC2 : TradingSession :=
  { callID := "c2", state := "symbol_selected", exchange := "OKX"
    symbol := "BITCOIN", price := 6512345 / 100, quantity := 0
    orderPrice := 0, context := [] }

/-! ## C8: idempotence of get-or-create -/

/-- C8: calling `getOrCreateSession` twice with no intervening write
returns the identical record both times, and the second call leaves the
store contents unchanged. -/
theorem getOrCreateSession_idempotent (st : SessionStore) (id : String) :
    getOrCreateSession (getOrCreateSession st id).2 id =
      getOrCreateSession st id := by
  cases hf : storeFind st id with
  | some s => simp [getOrCreateSession, hf]
  | none => simp [getOrCreateSession, hf, storeFind]

/-! ## C10: acceptance takes precedence over rejection -/

/-- C10: from state confirming, an utterance containing yes or correct
always completes the order, even when it also contains no or wrong. -/
theorem confirming_accept_precedence (lk : String → String → Option ℚ)
    (s : TradingSession) (u : String) (h : s.state = "confirming")
    (hy : strContains u "yes" = true ∨ strContains u "correct" = true) :
    (processUserInput lk s u).1.state = "completed" := by
  rw [processUserInput_confirming lk s u h]
  unfold handleConfirmation
  rcases hy with hy | hy <;> simp [hy]

/-- C10 witness: the utterance contains both no and wrong, yet also
yes, and the order completes. -/
theorem confirming_accept_precedence_witness :
    (processUserInput (fun _ _ => none) sessC10 "no yes wrong").1.state =
      "completed" :=
  confirming_accept_precedence (fun _ _ => none) sessC10 "no yes wrong" rfl
    (Or.inl (by decide))

/-! ## C3: the rejection path -/

/-- C3 counterexample: the utterance contains the substring no, yet the
session completes, because the acceptance branch tests for correct
first; the claim predicted state symbol_selected. -/
theorem confirming_no_counterexample :
    strContains "not correct" "no" = true ∧
    (processUserInput (fun _ _ => none) sessC3 "not correct").1.state =
      "completed" ∧
    ¬ (processUserInput (fun _ _ => none) sessC3 "not correct").1.state =
      "symbol_selected" := by
  decide

/-- C3 (amended): from state confirming, an utterance that contains no
and contains neither yes nor correct yields state symbol_selected with
quantity and order price reset to zero, regardless of prior values. -/
theorem confirming_no_rejects (lk : String → String → Option ℚ)
    (s : TradingSession) (u : String) (h : s.state = "confirming")
    (hno : strContains u "no" = true)
    (hyes : strContains u "yes" = false)
    (hcor : strContains u "correct" = false) :
    (processUserInput lk s u).1.state = "symbol_selected" ∧
    (processUserInput lk s u).1.quantity = 0 ∧
    (processUserInput lk s u).1.orderPrice = 0 := by
  rw [processUserInput_confirming lk s u h]
  unfold handleConfirmation
  simp [hno, hyes, hcor]

/-- C3 witness: a plain rejection resets both numeric fields from
nonzero prior values. -/
theorem confirming_no_rejects_witness :
    (processUserInput (fun _ _ => none) sessC3W "no").1.state =
      "symbol_selected" ∧
    (processUserInput (fun _ _ => none) sessC3W "no").1.quantity = 0 ∧
    (processUserInput (fun _ _ => none) sessC3W "no").1.orderPrice = 0 :=
  confirming_no_rejects (fun _ _ => none) sessC3W "no" rfl (by decide)
    (by decide) (by decide)

/-! ## C4: the completed state -/

/-- C4 counterexample: the Go switch has no case for completed, so a
completed session falls into the defensive default and is reset to
greeting; the claim predicted that the state stays completed. -/
theorem completed_terminal_counterexample :
    (processUserInput (fun _ _ => none) sessC4 "hello").1.state =
      "greeting" ∧
    ¬ (processUserInput (fun _ _ => none) sessC4 "hello").1.state =
      "completed" := by
  decide

/-- C4 (amended): for every session in state completed and every
utterance, `processUserInput` resets the state to greeting, leaves all
other fields unchanged, and returns the fixed lost-track reply: the
completed state is not terminal. -/
theorem completed_resets_to_greeting (lk : String → String → Option ℚ)
    (s : TradingSession) (u : String) (h : s.state = "completed") :
    processUserInput lk s u =
      ({ s with state := "greeting" },
        "I\x27m sorry, I seem to have lost track. Let\x27s start over. Which exchange would you like to trade on: OKX, Bybit, Deribit, or Binance?") :=
  processUserInput_completed lk s u h

/-- C4 witness. -/
theorem completed_resets_to_greeting_witness :
    processUserInput (fun _ _ => none) sessC4 "hello" =
      ({ sessC4 with state := "greeting" },
        "I\x27m sorry, I seem to have lost track. Let\x27s start over. Which exchange would you like to trade on: OKX, Bybit, Deribit, or Binance?") :=
  completed_resets_to_greeting (fun _ _ => none) sessC4 "hello" rfl

/-! ## C6: failed price lookup mutates nothing -/

/-- C6: when the price lookup fails in state exchange_selected, the
session is returned completely unchanged and the reply is the apology
naming the upper-cased symbol. -/
theorem lookup_failure_preserves_session (lk : String → String → Option ℚ)
    (s : TradingSession) (u : String) (h : s.state = "exchange_selected")
    (hfail : lk s.exchange (asciiUpper u) = none) :
    processUserInput lk s u =
      (s, "Sorry, I couldn\x27t get the price for " ++ asciiUpper u ++
        ". Please try a different symbol.") := by
  rw [processUserInput_exchangeSelected lk s u h]
  unfold handleSymbolSelection
  simp [hfail]

/-- C6 witness: a failing lookup for dogecoin leaves the session
untouched and apologises naming DOGECOIN. -/
theorem lookup_failure_preserves_session_witness :
    processUserInput (fun _ _ => none) sessC6 "dogecoin" =
      (sessC6, "Sorry, I couldn\x27t get the price for DOGECOIN. Please try a different symbol.") := by
  rw [lookup_failure_preserves_session (fun _ _ => none) sessC6 "dogecoin"
    rfl rfl]
  decide

/-! ## C2: the order-details scenario -/

/-- C2 counterexample: on the utterance 1.5 at 65000 the extractor
returns the first number for the price as well, so the order price
becomes 1.5, not the 65000 the claim predicts. -/
theorem orderDetails_counterexample :
    (processUserInput (fun _ _ => none) sessC2 "1.5 at 65000").1.orderPrice =
      3 / 2 ∧
    ¬ (processUserInput (fun _ _ => none) sessC2
        "1.5 at 65000").1.orderPrice = 65000 := by
  decide

/-- C2 (amended): from state symbol_selected the utterance 1.5 at 65000
yields state confirming with quantity 1.5 and order price 1.5 (the
first number is used for both fields), and the reply is the fixed
order-summary template rendered with 1.5000 in both numeric holes. -/
theorem orderDetails_one_five_at_65000 (lk : String → String → Option ℚ)
    (s : TradingSession) (h : s.state = "symbol_selected") :
    processUserInput lk s "1.5 at 65000" =
      ({ s with state := "confirming"
                quantity := 3 / 2
                orderPrice := 3 / 2 },
        confirmMsg "1.5000" s.symbol "1.5000" s.exchange) := by
  rw [processUserInput_symbolSelected lk s "1.5 at 65000" h]
  have he : extractNumber "1.5 at 65000" ["quantity", "amount", "size"] =
      (3 / 2, true) := by decide
  have he2 : extractNumber "1.5 at 65000" ["price", "at", "for"] =
      (3 / 2, true) := by decide
  have hn : (0 : ℚ) < 3 / 2 := by decide
  have hf : fmt4 (3 / 2) = "1.5000" := by decide
  simp [handleOrderDetails, he, he2, hn, confirmOrder, hf]

/-- C2 witness. -/
theorem orderDetails_one_five_at_65000_witness :
    processUserInput (fun _ _ => none) sessC2 "1.5 at 65000" =
      ({ sessC2 with state := "confirming"
                     quantity := 3 / 2
                     orderPrice := 3 / 2 },
        confirmMsg "1.5000" "BITCOIN" "1.5000" "OKX") :=
  orderDetails_one_five_at_65000 (fun _ _ => none) sessC2 rfl

/-! ## C1: the confirming invariant

The inductive invariant is stronger than the claim: positivity of the
two numeric fields is coupled at every reachable session (both
extractions in `handleOrderDetails` return the same first number, so
the fields move together), which makes the states awaiting_quantity
and awaiting_price unreachable, and a session only enters confirming
through the guard that checks both fields. -/

/-- The inductive invariant for `Reachable`. -/
def Inv (s : TradingSession) : Prop :=
  (0 < s.quantity ↔ 0 < s.orderPrice) ∧
  (s.state = "confirming" → 0 < s.quantity ∧ 0 < s.orderPrice) ∧
  (s.state = "greeting" ∨ s.state = "exchange_selected" ∨
    s.state = "symbol_selected" ∨ s.state = "confirming" ∨
    s.state = "completed")

theorem inv_initial (id : String) : Inv (initialSession id) := by
  simp [Inv, initialSession]

theorem inv_handleExchangeSelection (s : TradingSession) (u : String)
    (hst : s.state = "greeting")
    (hiff : 0 < s.quantity ↔ 0 < s.orderPrice) :
    Inv (handleExchangeSelection s u).1 := by
  simp only [handleExchangeSelection]
  cases hfind : exchangePairs.find? (fun kv => strContains u kv.1) with
  | none =>
    simp [Inv, hst]
    exact hiff
  | some kv =>
    simp [Inv]
    exact hiff

theorem inv_handleSymbolSelection (lk : String → String → Option ℚ)
    (s : TradingSession) (u : String) (hst : s.state = "exchange_selected")
    (hiff : 0 < s.quantity ↔ 0 < s.orderPrice) :
    Inv (handleSymbolSelection lk s u).1 := by
  simp only [handleSymbolSelection]
  cases hlk : lk s.exchange (asciiUpper u) with
  | none =>
    simp [Inv, hst]
    exact hiff
  | some price =>
    simp [Inv]
    exact hiff

theorem inv_handleOrderDetails (s : TradingSession) (u : String)
    (hst : s.state = "symbol_selected")
    (hiff : 0 < s.quantity ↔ 0 < s.orderPrice) :
    Inv (handleOrderDetails s u).1 := by
  simp only [handleOrderDetails]
  have hkw : extractNumber u ["price", "at", "for"] =
      extractNumber u ["quantity", "amount", "size"] := rfl
  rw [hkw]
  rcases hq : extractNumber u ["quantity", "amount", "size"] with ⟨n, found⟩
  cases found with
  | false =>
    by_cases h1 : 0 < s.quantity ∧ 0 < s.orderPrice
    · simp [Inv, h1.1, h1.2]
    · have h2 : ¬ 0 < s.quantity := fun hq' => h1 ⟨hq', hiff.mp hq'⟩
      have h3 : ¬ 0 < s.orderPrice := fun hp' => h1 ⟨hiff.mpr hp', hp'⟩
      simp [Inv, hst, h2, h3]
  | true =>
    by_cases hn : (0 : ℚ) < n
    · simp [Inv, hn]
    · simp [Inv, hst, hn]

theorem inv_handleConfirmation (s : TradingSession) (u : String)
    (hst : s.state = "confirming")
    (hiff : 0 < s.quantity ↔ 0 < s.orderPrice)
    (hconf : s.state = "confirming" → 0 < s.quantity ∧ 0 < s.orderPrice) :
    Inv (handleConfirmation s u).1 := by
  simp only [handleConfirmation]
  by_cases hy : (strContains u "yes" || strContains u "correct") = true
  · simp [Inv, hy]
    exact hiff
  · by_cases hn2 : (strContains u "no" || strContains u "wrong") = true
    · simp [Inv, hy, hn2]
    · simp [Inv, hy, hn2, hst]
      exact ⟨hiff, hconf hst⟩

theorem inv_preserved (lk : String → String → Option ℚ)
    (s : TradingSession) (u : String) (h : Inv s) :
    Inv (processUserInput lk s u).1 := by
  obtain ⟨hiff, hconf, hmem⟩ := h
  rcases hmem with hst | hst | hst | hst | hst
  · rw [processUserInput_greeting lk s u hst]
    exact inv_handleExchangeSelection s u hst hiff
  · rw [processUserInput_exchangeSelected lk s u hst]
    exact inv_handleSymbolSelection lk s u hst hiff
  · rw [processUserInput_symbolSelected lk s u hst]
    exact inv_handleOrderDetails s u hst hiff
  · rw [processUserInput_confirming lk s u hst]
    exact inv_handleConfirmation s u hst hiff hconf
  · rw [processUserInput_completed lk s u hst]
    simp [Inv]
    exact hiff

theorem reachable_inv (s : TradingSession) (h : Reachable s) : Inv s := by
  induction h with
  | init id => exact inv_initial id
  | step lk u s _ ih => exact inv_preserved lk s u ih

/-- C1: every session reachable from a freshly created one that is in
state confirming has positive quantity and positive order price. -/
theorem confirming_fields_positive (s : TradingSession) (h : Reachable s)
    (hc : s.state = "confirming") :
    0 < s.quantity ∧ 0 < s.orderPrice :=
  (reachable_inv s h).2.1 hc

/-- The gateway used on the C1 witness path: every lookup succeeds
with the quote 65123.45. -/
def lookupW : String → String → Option ℚ := fun _ _ => some (6512345 / 100)

/-- The C1 witness path: greeting, select OKX, quote BITCOIN, then give
the order details; the resulting session is in state confirming. -/
def sessW3 : TradingSession :=
  (processUserInput lookupW
    (processUserInput lookupW
      (processUserInput lookupW (initialSession "w") "okx").1
      "bitcoin").1 "1.5 at 65000").1

/-- C1 witness: a concrete reachable confirming session with both
fields positive. -/
theorem confirming_fields_positive_witness :
    0 < sessW3.quantity ∧ 0 < sessW3.orderPrice :=
  confirming_fields_positive sessW3
    (Reachable.step lookupW "1.5 at 65000" _
      (Reachable.step lookupW "bitcoin" _
        (Reachable.step lookupW "okx" _ (Reachable.init "w"))))
    (by decide)

/-! ## C5: the extractor ignores its keywords and takes the first number -/

/-- The extraction policy as the spec words it (section 4.1): split on
whitespace after global comma removal, strip surrounding punctuation
from each token, and take the first token that parses as a decimal
number. -/
def firstNumberSpec (text : String) : Option ℚ :=
  (fieldsL (removeCommas text.toList)).findSome?
    (fun w => parseDec (trimL cutset w))

theorem extractCore_eq_findSome (ws : List (List Char)) :
    extractCore ws =
      (match ws.findSome? (fun w => parseDec (trimL cutset w)) with
        | some n => (n, true)
        | none => (0, false)) := by
  induction ws with
  | nil => rfl
  | cons w ws ih =>
    simp only [extractCore, List.findSome?]
    cases parseDec (trimL cutset w) with
    | none => simpa using ih
    | some n => rfl

/-- C5: the extractor is keyword-agnostic (any two keyword lists give
the same result), and its result is exactly the first number in
reading order: the parse of the first whitespace-separated token of
the comma-stripped text that, after punctuation trimming, parses as a
decimal number. -/
theorem extractNumber_ignores_keywords (text : String) (k1 k2 : List String) :
    extractNumber text k1 = extractNumber text k2 ∧
    extractNumber text k1 =
      (match firstNumberSpec text with
        | some n => (n, true)
        | none => (0, false)) :=
  ⟨rfl, extractCore_eq_findSome (fieldsL (removeCommas text.toList))⟩

/-! ## C7: round trip of decimal renderings through the extractor

A positive binary64 value always has a finite decimal expansion, so
the round-trip claim is stated over arbitrary finite decimal
renderings: integer digits (optionally grouped by thousands-separator
commas) and fraction digits. -/

/-- The character of a decimal digit. -/
def digitChar (d : Fin 10) : Char := Char.ofNat (48 + d.val)

/-- Numeric value of a digit list, most significant first. -/
def natValN (ds : List (Fin 10)) : ℕ :=
  ds.foldl (fun a d => 10 * a + d.val) 0

/-- The rendered fraction part: nothing, or a dot followed by the
fraction digits. -/
def fracChars (fs : List (Fin 10)) : List Char :=
  if fs = [] then [] else '.' :: fs.map digitChar

/-- Rendering without separators: integer digits, then the fraction
part. -/
def renderPlain (ds fs : List (Fin 10)) : List Char :=
  ds.map digitChar ++ fracChars fs

/-- Join character groups with commas. -/
def commaJoin : List (List Char) → List Char
  | [] => []
  | [g] => g
  | g :: g2 :: gs => g ++ ',' :: commaJoin (g2 :: gs)

/-- Rendering with the integer digits split into comma-separated
groups (a single group renders no separator at all). -/
def renderGrouped (gs : List (List (Fin 10))) (fs : List (Fin 10)) :
    List Char :=
  commaJoin (gs.map (fun g => g.map digitChar)) ++ fracChars fs

/-- The rational value of a grouped decimal rendering. -/
def decValue (gs : List (List (Fin 10))) (fs : List (Fin 10)) : ℚ :=
  (natValN gs.flatten : ℚ) + (natValN fs : ℚ) / 10 ^ fs.length

theorem digitChar_digit : ∀ d : Fin 10, isDigitChar (digitChar d) = true := by
  decide

theorem digitChar_toNat : ∀ d : Fin 10, (digitChar d).toNat - 48 = d.val := by
  decide

theorem digitChar_not_cut :
    ∀ d : Fin 10, cutset.contains (digitChar d) = false := by
  decide

theorem digitChar_not_space :
    ∀ d : Fin 10, isSpaceChar (digitChar d) = false := by
  decide

theorem digitChar_not_comma : ∀ d : Fin 10, (digitChar d == ',') = false := by
  decide

theorem digitChar_ne_plus : ∀ d : Fin 10, ¬ digitChar d = '+' := by
  decide

theorem digitChar_ne_minus : ∀ d : Fin 10, ¬ digitChar d = '-' := by
  decide

theorem spanDigits_append_render (ds : List (Fin 10)) (rest : List Char)
    (h : ∀ c, rest.head? = some c → isDigitChar c = false) :
    spanDigits (ds.map digitChar ++ rest) = (ds.map digitChar, rest) := by
  induction ds with
  | nil =>
    simp only [List.map_nil, List.nil_append]
    cases rest with
    | nil => rfl
    | cons c cs => simp [spanDigits, h c rfl]
  | cons d ds ih =>
    simp [spanDigits, digitChar_digit d, ih]

theorem spanDigits_render (ds : List (Fin 10)) :
    spanDigits (ds.map digitChar) = (ds.map digitChar, []) := by
  have h := spanDigits_append_render ds []
    (fun c hc => by simp at hc)
  simpa using h

theorem natVal_render (ds : List (Fin 10)) :
    natVal (ds.map digitChar) = natValN ds := by
  suffices h : ∀ a : ℕ,
      (ds.map digitChar).foldl (fun a c => 10 * a + (c.toNat - 48)) a =
        ds.foldl (fun a d => 10 * a + d.val) a from h 0
  induction ds with
  | nil => intro a; rfl
  | cons d ds ih =>
    intro a
    simp only [List.map_cons, List.foldl_cons, digitChar_toNat d]
    exact ih (10 * a + d.val)

theorem dropWhile_head_false (p : Char → Bool) (a : Char) (l : List Char)
    (h : p a = false) : List.dropWhile p (a :: l) = a :: l := by
  simp [List.dropWhile_cons, h]

theorem trimL_id (cut : List Char) (c0 : Char) (cs : List Char)
    (h0 : cut.contains c0 = false)
    (hl : ∀ c, (c0 :: cs).getLast? = some c → cut.contains c = false) :
    trimL cut (c0 :: cs) = c0 :: cs := by
  unfold trimL
  rcases hrev : (c0 :: cs).reverse with _ | ⟨c1, cs1⟩
  · exact absurd hrev (by simp)
  · have hc1 : cut.contains c1 = false := by
      apply hl
      rw [← List.head?_reverse, hrev]
      rfl
    rw [dropWhile_head_false _ _ _ h0, hrev,
      dropWhile_head_false _ _ _ hc1, ← hrev, List.reverse_reverse]

theorem removeCommas_digits (g : List (Fin 10)) :
    removeCommas (g.map digitChar) = g.map digitChar := by
  unfold removeCommas
  apply List.filter_eq_self.mpr
  intro c hc
  obtain ⟨d, _, rfl⟩ := List.mem_map.mp hc
  simp [digitChar_not_comma d]

theorem removeCommas_commaJoin (gs : List (List (Fin 10))) :
    removeCommas (commaJoin (gs.map (fun g => g.map digitChar))) =
      gs.flatten.map digitChar := by
  induction gs with
  | nil => rfl
  | cons g gs ih =>
    cases gs with
    | nil =>
      simp only [List.map_cons, List.map_nil, commaJoin]
      rw [removeCommas_digits]
      simp
    | cons g2 gs2 =>
      simp only [List.map_cons, commaJoin]
      unfold removeCommas at ih ⊢
      rw [List.filter_append, List.filter_cons]
      simp only [show (!(',' == ',')) = false from rfl, Bool.false_eq_true,
        if_false]
      simp only [List.map_cons] at ih
      rw [ih]
      have hg := removeCommas_digits g
      unfold removeCommas at hg
      rw [hg]
      simp

theorem removeCommas_fracChars (fs : List (Fin 10)) :
    removeCommas (fracChars fs) = fracChars fs := by
  unfold fracChars
  cases fs with
  | nil => rfl
  | cons f0 fs' =>
    simp only [List.cons_ne_nil, if_false, removeCommas, List.filter_cons]
    have h := removeCommas_digits (f0 :: fs')
    unfold removeCommas at h
    rw [h]
    rfl

theorem removeCommas_renderGrouped (gs : List (List (Fin 10)))
    (fs : List (Fin 10)) :
    removeCommas (renderGrouped gs fs) = renderPlain gs.flatten fs := by
  unfold renderGrouped renderPlain removeCommas
  rw [List.filter_append]
  have h1 := removeCommas_commaJoin gs
  have h2 := removeCommas_fracChars fs
  unfold removeCommas at h1 h2
  rw [h1, h2]

theorem fieldsAux_nospace (cs : List Char)
    (h : ∀ c ∈ cs, isSpaceChar c = false) :
    ∀ acc : List Char, fieldsAux cs acc =
      if acc.reverse ++ cs = [] then [] else [acc.reverse ++ cs] := by
  induction cs with
  | nil =>
    intro acc
    simp only [fieldsAux, List.append_nil]
    rcases acc with _ | ⟨a, acc'⟩
    · rfl
    · simp
  | cons c cs ih =>
    intro acc
    have hc : isSpaceChar c = false := h c (List.mem_cons_self c cs)
    have hrest : ∀ x ∈ cs, isSpaceChar x = false :=
      fun x hx => h x (List.mem_cons_of_mem c hx)
    simp only [fieldsAux, hc, Bool.false_eq_true, if_false]
    rw [ih hrest (c :: acc)]
    simp [List.append_assoc]

theorem fieldsL_single (cs : List Char) (hne : cs ≠ [])
    (h : ∀ c ∈ cs, isSpaceChar c = false) : fieldsL cs = [cs] := by
  unfold fieldsL
  rw [fieldsAux_nospace cs h []]
  simp [hne]

theorem parseDec_renderPlain (ds fs : List (Fin 10)) (hne : ds ≠ []) :
    parseDec (renderPlain ds fs) =
      some ((natValN ds : ℚ) + (natValN fs : ℚ) / 10 ^ fs.length) := by
  rcases ds with _ | ⟨d0, ds'⟩
  · exact absurd rfl hne
  have hmapne : (d0 :: ds').map digitChar ≠ [] := by simp
  have hhead : ∀ c, (fracChars fs).head? = some c → isDigitChar c = false := by
    intro c hc
    unfold fracChars at hc
    rcases fs with _ | ⟨f0, fs'⟩
    · simp at hc
    · simp only [List.cons_ne_nil, if_false] at hc
      cases hc
      rfl
  have hspan := spanDigits_append_render (d0 :: ds') (fracChars fs) hhead
  have hstep : renderPlain (d0 :: ds') fs =
      digitChar d0 :: (ds'.map digitChar ++ fracChars fs) := by
    simp [renderPlain]
  rw [hstep]
  simp only [parseDec]
  rw [if_neg (digitChar_ne_plus d0), if_neg (digitChar_ne_minus d0)]
  unfold parseUnsigned
  rw [show digitChar d0 :: (ds'.map digitChar ++ fracChars fs) =
    (d0 :: ds').map digitChar ++ fracChars fs from rfl, hspan]
  rcases fs with _ | ⟨f0, fs'⟩
  · rw [show fracChars [] = [] from rfl]
    simp only [parseAfterSpan]
    rw [if_neg hmapne, natVal_render]
    simp [natValN]
  · rw [show fracChars (f0 :: fs') = '.' :: (f0 :: fs').map digitChar from
      rfl]
    simp only [parseAfterSpan, if_true]
    rw [spanDigits_render (f0 :: fs')]
    simp only [parseFrac]
    rw [if_neg (by simp)]
    rw [natVal_render, natVal_render, List.length_map]

theorem renderPlain_getLast_not_cut (ds fs : List (Fin 10)) (hne : ds ≠ []) :
    ∀ c, (renderPlain ds fs).getLast? = some c → cutset.contains c = false := by
  intro c hc
  rw [← List.head?_reverse] at hc
  unfold renderPlain at hc
  rcases fs with _ | ⟨f0, fs'⟩
  · rw [show fracChars [] = [] from rfl, List.append_nil,
      ← List.map_reverse] at hc
    rcases hrev : ds.reverse with _ | ⟨d1, ds1⟩
    · rw [hrev] at hc
      simp at hc
    · rw [hrev] at hc
      cases hc
      exact digitChar_not_cut d1
  · rw [show fracChars (f0 :: fs') = '.' :: (f0 :: fs').map digitChar from
      rfl, List.reverse_append, List.reverse_cons, ← List.map_reverse] at hc
    rcases hrev : (f0 :: fs').reverse with _ | ⟨d1, ds1⟩
    · exact absurd hrev (by simp)
    · rw [hrev] at hc
      simp only [List.map_cons, List.cons_append, List.head?_cons,
        Option.some.injEq] at hc
      rw [← hc]
      exact digitChar_not_cut d1

theorem trimL_renderPlain (ds fs : List (Fin 10)) (hne : ds ≠ []) :
    trimL cutset (renderPlain ds fs) = renderPlain ds fs := by
  rcases ds with _ | ⟨d0, ds'⟩
  · exact absurd rfl hne
  have hstep : renderPlain (d0 :: ds') fs =
      digitChar d0 :: (ds'.map digitChar ++ fracChars fs) := by
    simp [renderPlain]
  rw [hstep]
  apply trimL_id
  · exact digitChar_not_cut d0
  · intro c hc
    apply renderPlain_getLast_not_cut (d0 :: ds') fs (by simp) c
    rw [hstep]
    exact hc

theorem renderPlain_nospace (ds fs : List (Fin 10)) :
    ∀ c ∈ renderPlain ds fs, isSpaceChar c = false := by
  intro c hc
  unfold renderPlain at hc
  rcases List.mem_append.mp hc with h | h
  · obtain ⟨d, _, rfl⟩ := List.mem_map.mp h
    exact digitChar_not_space d
  · unfold fracChars at h
    rcases fs with _ | ⟨f0, fs'⟩
    · simp at h
    · simp only [List.cons_ne_nil, if_false] at h
      rcases List.mem_cons.mp h with rfl | h2
      · rfl
      · obtain ⟨d, _, rfl⟩ := List.mem_map.mp h2
        exact digitChar_not_space d

/-- C7: for every finite positive decimal rendering, with or without
thousands-separator commas in the integer part, the extractor recovers
the exact value: `extractNumber` applied to the rendering returns the
rendered value and true.  Every positive binary64 value is such a
finite decimal. -/
theorem extractNumber_roundtrip (gs : List (List (Fin 10)))
    (fs : List (Fin 10)) (k : List String) (hgs : gs ≠ [])
    (hg : ∀ g ∈ gs, g ≠ []) (hpos : 0 < decValue gs fs) :
    extractNumber (String.mk (renderGrouped gs fs)) k =
      (decValue gs fs, true) := by
  have hjoin : gs.flatten ≠ [] := by
    rcases gs with _ | ⟨g0, gs'⟩
    · exact absurd rfl hgs
    have hg0 : g0 ≠ [] := hg g0 (List.mem_cons_self g0 gs')
    rcases g0 with _ | ⟨d0, g0'⟩
    · exact absurd rfl hg0
    simp
  have hplne : renderPlain gs.flatten fs ≠ [] := by
    unfold renderPlain
    rcases hj : gs.flatten with _ | ⟨d0, ds'⟩
    · exact absurd hj hjoin
    simp
  unfold extractNumber
  rw [show (String.mk (renderGrouped gs fs)).toList = renderGrouped gs fs
    from rfl]
  rw [removeCommas_renderGrouped gs fs]
  rw [fieldsL_single _ hplne (renderPlain_nospace gs.flatten fs)]
  simp only [extractCore]
  rw [trimL_renderPlain gs.flatten fs hjoin,
    parseDec_renderPlain gs.flatten fs hjoin]
  rfl

/-- C7 witness: the rendering 65,000 round-trips to the value 65000. -/
theorem extractNumber_roundtrip_witness :
    extractNumber
        (String.mk (renderGrouped [[6, 5], [0, 0, 0]] ([] : List (Fin 10))))
        [] =
      (decValue [[6, 5], [0, 0, 0]] ([] : List (Fin 10)), true) :=
  extractNumber_roundtrip [[6, 5], [0, 0, 0]] [] [] (by decide) (by decide)
    (by decide)

/-! ## C9: the read-modify-write critical section

`HandleBlandWebhook` performs three steps on the store: the read
(`getOrCreateSession`, holding the mutex), the state-machine step
(`processUserInput`, outside any critical section), and the write
(`updateSession`, holding the mutex again).  Each store operation is
individually atomic, but the lock is released between the read and
the write, so with two concurrent requests for the same call id the
interleaving read-read-write-write is possible.  The definitions
below execute that interleaving with the store operations embedded
above. -/

/-- The read phase of the read-read-write-write interleaving: both
requests perform their `getOrCreateSession` before either write.
Returns the two snapshots and the store after both reads. -/
def raceReads (st : SessionStore) (id : String) :
    TradingSession × TradingSession × SessionStore :=
  let r1 := getOrCreateSession st id
  let r2 := getOrCreateSession r1.2 id
  (r1.1, r2.1, r2.2)

/-- The full read-read-write-write interleaving: each request steps
the snapshot it read and writes the result back, request one first. -/
def raceFinal (st : SessionStore) (id : String)
    (lk1 lk2 : String → String → Option ℚ) (u1 u2 : String) :
    SessionStore :=
  let r := raceReads st id
  updateSession (updateSession r.2.2 (processUserInput lk1 r.1 u1).1)
    (processUserInput lk2 r.2.1 u2).1

theorem processUserInput_callID (lk : String → String → Option ℚ)
    (s : TradingSession) (u : String) :
    (processUserInput lk s u).1.callID = s.callID := by
  simp only [processUserInput, handleExchangeSelection,
    handleSymbolSelection, handleOrderDetails, handleQuantity,
    handleOrderPrice, handleConfirmation]
  repeat' split
  all_goals rfl

/-- C9 counterexample: from an empty store, the interleaving
read-read-write-write of the requests (c, okx) and (c, bybit) has both
requests read the identical prior session (still in state greeting),
and the final store holds the second utterance applied to that shared
greeting snapshot: the first request's exchange selection is lost.
The claim said this interleaving cannot happen. -/
theorem webhook_atomicity_counterexample :
    (raceReads [] "c").1 = (raceReads [] "c").2.1 ∧
    (raceReads [] "c").1.state = "greeting" ∧
    storeFind (raceFinal [] "c" (fun _ _ => none) (fun _ _ => none)
        "okx" "bybit") "c" =
      some (processUserInput (fun _ _ => none) (initialSession "c")
        "bybit").1 ∧
    (processUserInput (fun _ _ => none) (initialSession "c")
        "bybit").1.exchange = "Bybit" := by
  decide

/-- C9 (amended): the store serializes its individual operations, but
the read, the state-machine step and the write of a request are not
one atomic unit: the mutex is released in between, so in the
read-read-write-write interleaving two concurrent utterances for the
same fresh call id both read the identical prior session state, and
the final store content is the second step applied to that shared
snapshot (the first request's update is lost). -/
theorem webhook_readModifyWrite_not_atomic (st : SessionStore)
    (id : String) (lk1 lk2 : String → String → Option ℚ) (u1 u2 : String)
    (h : storeFind st id = none) :
    (raceReads st id).1 = (raceReads st id).2.1 ∧
    (raceReads st id).1.state = "greeting" ∧
    storeFind (raceFinal st id lk1 lk2 u1 u2) id =
      some (processUserInput lk2 (initialSession id) u2).1 := by
  have hr : raceReads st id =
      (initialSession id, initialSession id,
        (id, initialSession id) :: st) := by
    simp [raceReads, getOrCreateSession, h, storeFind]
  refine ⟨by rw [hr], by rw [hr]; rfl, ?_⟩
  rw [raceFinal, hr]
  unfold updateSession storeFind
  rw [processUserInput_callID lk2 (initialSession id) u2]
  simp [initialSession]

/-- C9 witness for the amended statement. -/
theorem webhook_readModifyWrite_not_atomic_witness :
    (raceReads [] "w9").1 = (raceReads [] "w9").2.1 ∧
    (raceReads [] "w9").1.state = "greeting" ∧
    storeFind (raceFinal [] "w9" (fun _ _ => none) (fun _ _ => none)
        "okx" "deribit") "w9" =
      some (processUserInput (fun _ _ => none) (initialSession "w9")
        "deribit").1 :=
  webhook_readModifyWrite_not_atomic [] "w9" (fun _ _ => none)
    (fun _ _ => none) "okx" "deribit" rfl

end Quant
